import Mathlib

/-!
Verification of the ComicViewer backend core (comic_parser.py, scanner.py)
against its natural-language specification.

The Python source is shallowly embedded: the filesystem seen by the code is
a finite map from path strings to file data and directory listings; functions
that can raise a Python exception return values in the Except monad, with
the exception propagation of the source made explicit; everything else is a
plain Lean function mirroring the Python statement by statement.
-/

namespace ComicViewer

/-- Bytes of a file or of an archive entry, as a list of byte values. -/
abbrev Bytes := List Nat

/-- Python exceptions that the modelled code can raise or catch. -/
inductive PyErr
  | badZipFile   -- zipfile.BadZipFile
  | keyError     -- KeyError from ZipFile.read on a missing entry name
  | osError      -- OSError family (missing file on open, etc.)
deriving DecidableEq, Repr

instance {ε α : Type} [DecidableEq ε] [DecidableEq α] : DecidableEq (Except ε α) :=
  fun x y =>
    match x, y with
    | .ok a, .ok b =>
        if h : a = b then isTrue (by rw [h]) else isFalse (by simp [h])
    | .error a, .error b =>
        if h : a = b then isTrue (by rw [h]) else isFalse (by simp [h])
    | .ok _, .error _ => isFalse (by simp)
    | .error _, .ok _ => isFalse (by simp)

/-! ## Path and string helpers (os.path, str methods) -/

/-- Model of str.lower for the ASCII strings handled here. -/
def pyLower (s : String) : String := String.mk (s.toList.map Char.toLower)

/-- Model of str.endswith: the argument is a suffix of the receiver. -/
def strEndsWith (s suffix : String) : Bool :=
  s.toList.reverse.take suffix.toList.length == suffix.toList.reverse

/-- Model of str.startswith. -/
def strStartsWith (s t : String) : Bool :=
  s.toList.take t.toList.length == t.toList

/-- Model of os.path.join(a, b) for a relative last component on POSIX. -/
def joinPath (a b : String) : String := a ++ "/" ++ b

/-- Index of the last character satisfying p, as an Int (-1 when absent),
mirroring str.rfind. -/
def rfindIdx (p : Char → Bool) (l : List Char) : Int :=
  match l.reverse.findIdx? p with
  | some i => (l.length : Int) - 1 - (i : Int)
  | none => -1

/-- Model of os.path.splitext on the character list: split at the last dot
that comes after the last path separator, unless every character between the
separator and that dot is itself a dot (leading dots of the base name never
start an extension). -/
def splitextList (l : List Char) : List Char × List Char :=
  let sepIdx := rfindIdx (fun c => c == '/') l
  let dotIdx := rfindIdx (fun c => c == '.') l
  if dotIdx > sepIdx then
    let between := (l.take dotIdx.toNat).drop (sepIdx + 1).toNat
    if between.all (fun c => c == '.') then (l, [])
    else (l.take dotIdx.toNat, l.drop dotIdx.toNat)
  else (l, [])

/-- Model of os.path.splitext on strings. -/
def splitext (s : String) : String × String :=
  let p := splitextList s.toList
  (String.mk p.1, String.mk p.2)

/-- Lexicographic code-point comparison of character lists, the order
Python uses on strings. -/
def listLeB : List Char → List Char → Bool
  | [], _ => true
  | _ :: _, [] => false
  | a :: as, b :: bs =>
      if a.toNat < b.toNat then true
      else if b.toNat < a.toNat then false
      else listLeB as bs

/-- Order on strings as Python compares them: lexicographic by code point. -/
def strLe (a b : String) : Prop := listLeB a.toList b.toList = true

instance : DecidableRel strLe := fun a b =>
  inferInstanceAs (Decidable (listLeB a.toList b.toList = true))

/-- Sorting a list of strings in ascending order, as Python list.sort and
sorted do on strings. -/
def sortStrings (l : List String) : List String :=
  List.insertionSort strLe l

/-! ## Filesystem model -/

/-- View of a file content through the zipfile module.
notZip: zipfile.is_zipfile is False (no end-of-central-directory record).
truncated: the end-of-central-directory record is present, so
zipfile.is_zipfile returns True, but the central directory itself cannot be
parsed, so constructing a ZipFile raises BadZipFile (the behaviour of a ZIP
truncated inside its central directory).
valid: the archive opens; each entry carries its name and either its bytes
(some b) or none when reading that one entry raises BadZipFile. -/
inductive ZipView
  | notZip
  | truncated
  | valid (entries : List (String × Option Bytes))
deriving DecidableEq, Repr

/-- Content of one regular file: its raw bytes and how zipfile sees it. -/
structure FileData where
  bytes : Bytes
  zip : ZipView
deriving DecidableEq, Repr

/-- A snapshot of the filesystem: regular files by path, and directories by
path with the base names os.listdir would return. -/
structure FS where
  files : List (String × FileData)
  dirs : List (String × List String)
deriving DecidableEq, Repr

/-- Model of os.path.isfile. -/
def FS.isfile (fs : FS) (p : String) : Bool := (fs.files.lookup p).isSome

/-- Model of os.path.isdir. -/
def FS.isdir (fs : FS) (p : String) : Bool := (fs.dirs.lookup p).isSome

/-- Model of os.listdir on a path known to be a directory (the code only
calls it after an isdir check, so the default for non-directories is inert). -/
def FS.listdir (fs : FS) (p : String) : List String :=
  (fs.dirs.lookup p).getD []

/-- Zip view of the file at a path (notZip when there is no such file:
zipfile.is_zipfile catches OSError and reports False). -/
def FS.zipView (fs : FS) (p : String) : ZipView :=
  match fs.files.lookup p with
  | some fd => fd.zip
  | none => .notZip

/-- Model of zipfile.is_zipfile: True exactly when the end-of-central
directory record is found. -/
def is_zipfile (fs : FS) (p : String) : Bool :=
  match fs.zipView p with
  | .notZip => false
  | _ => true

/-- Model of open(p, "rb").read(): the raw bytes of the file, raising
OSError when the path does not name a file. -/
def readFileBytes (fs : FS) (p : String) : Except PyErr Bytes :=
  match fs.files.lookup p with
  | some fd => .ok fd.bytes
  | none => .error .osError

/-- Model of zipfile.ZipFile(p): the entry list on success, BadZipFile when
the archive cannot be parsed (also for non-zip content). -/
def zipOpen (fs : FS) (p : String) : Except PyErr (List (String × Option Bytes)) :=
  match fs.zipView p with
  | .valid es => .ok es
  | _ => .error .badZipFile

/-- Model of ZipFile.read(name): ZipFile.getinfo resolves a name through a
dict built in entry order, so a duplicated name resolves to its last
occurrence; a missing name raises KeyError and an unreadable entry raises
BadZipFile. -/
def zipReadEntry (es : List (String × Option Bytes)) (name : String) :
    Except PyErr Bytes :=
  match (es.filter (fun e => e.1 == name)).getLast? with
  | none => .error .keyError
  | some (_, none) => .error .badZipFile
  | some (_, some b) => .ok b

/-! ## comic_parser.py -/

/-- IMAGE_EXTENSIONS from comic_parser.py. -/
def IMAGE_EXTENSIONS : List String :=
  [".jpg", ".jpeg", ".png", ".webp", ".gif", ".bmp", ".tiff"]

/-- is_image_file from comic_parser.py: the extension, lower-cased, is a
supported image type. -/
def is_image_file (filename : String) : Bool :=
  IMAGE_EXTENSIONS.contains (pyLower (splitext filename).2)

/-- is_cbz_file from comic_parser.py: an existing file whose lower-cased
path ends in .cbz or .zip and which passes the zipfile.is_zipfile probe. -/
def is_cbz_file (fs : FS) (filepath : String) : Bool :=
  fs.isfile filepath
    && (strEndsWith (pyLower filepath) ".cbz" || strEndsWith (pyLower filepath) ".zip")
    && is_zipfile fs filepath

/-- list_cbz_pages from comic_parser.py: the image entries of the archive,
excluding names starting with __MACOSX, sorted ascending. Opening the
archive can raise BadZipFile, which this function does not catch. -/
def list_cbz_pages (fs : FS) (cbz_path : String) : Except PyErr (List String) := do
  let es ← zipOpen fs cbz_path
  let entries := (es.map (fun e => e.1)).filter
    (fun nm => is_image_file nm && !(strStartsWith nm "__MACOSX"))
  return sortStrings entries

/-- extract_cbz_page from comic_parser.py: read a single entry, returning
none when a KeyError or BadZipFile is raised inside the try block. -/
def extract_cbz_page (fs : FS) (cbz_path page_name : String) :
    Except PyErr (Option Bytes) :=
  match (do
      let es ← zipOpen fs cbz_path
      zipReadEntry es page_name : Except PyErr Bytes) with
  | .ok b => .ok (some b)
  | .error .keyError => .ok none
  | .error .badZipFile => .ok none
  | .error e => .error e

/-- list_folder_pages from comic_parser.py: joined paths of the image files
of a directory, sorted ascending; empty for a non-directory. -/
def list_folder_pages (fs : FS) (folder_path : String) : List String :=
  if fs.isdir folder_path then
    sortStrings (((fs.listdir folder_path).filter is_image_file).map
      (fun f => joinPath folder_path f))
  else []

/-- get_page_count from comic_parser.py. -/
def get_page_count (fs : FS) (chapter_path : String) : Except PyErr Nat := do
  if is_cbz_file fs chapter_path then
    let pages ← list_cbz_pages fs chapter_path
    return pages.length
  else if fs.isdir chapter_path then
    return (list_folder_pages fs chapter_path).length
  else
    return 0

/-- get_page_image from comic_parser.py, with the zero-based page number as
a Python int. -/
def get_page_image (fs : FS) (chapter_path : String) (page_number : Int) :
    Except PyErr (Option Bytes) := do
  if is_cbz_file fs chapter_path then
    let pages ← list_cbz_pages fs chapter_path
    if 0 ≤ page_number ∧ page_number < (pages.length : Int) then
      extract_cbz_page fs chapter_path (pages.getD page_number.toNat "")
    else
      return none
  else if fs.isdir chapter_path then
    let pages := list_folder_pages fs chapter_path
    if 0 ≤ page_number ∧ page_number < (pages.length : Int) then
      let b ← readFileBytes fs (pages.getD page_number.toNat "")
      return some b
    else
      return none
  else
    return none

/-- get_page_thumbnail from comic_parser.py. The body of its try block
(PIL Image.open, Image.thumbnail, JPEG re-encode) lives in the external
Pillow library, so it is abstracted as the parameter thumbAttempt: some
bytes on success, none when any step raises (the except branch returns
None). -/
def get_page_thumbnail (thumbAttempt : Bytes → Option Bytes) (fs : FS)
    (chapter_path : String) (page_number : Int) : Except PyErr (Option Bytes) := do
  let image_data ← get_page_image fs chapter_path page_number
  match image_data with
  | none => return none
  | some d => return (thumbAttempt d)

/-! ## scanner.py: chapter number heuristic

The regex
  (?:ch(?:apter)?[\s._-]*)(\d+(?:\.\d+)?)
searched case-insensitively, and the anchored
  (\d+(?:\.\d+)?)
are embedded with their backtracking semantics made explicit. Greedy
backtracking degenerates here: the separator class and the digit class are
disjoint, so giving back separator characters can never enable the digit
token, and the optional apter only has its two alternatives tried in order.
The captured numeric token is kept as its exact decimal value in ℚ; Python
converts it with float, which agrees on every integral token. -/

/-- Characters matched by the regex class of whitespace, dot, underscore
and hyphen (ASCII part of the class, which covers all inputs here). -/
def isSepChar (c : Char) : Bool :=
  c == ' ' || c == '\t' || c == '\n' || c == '\x0b' || c == '\x0c' ||
  c == '\r' || c == '.' || c == '_' || c == '-'

/-- Numeric token captured by the regex group: integer digits and optional
fractional digits. -/
structure NumTok where
  ip : List Char
  fp : List Char
deriving DecidableEq, Repr

/-- Value of a run of decimal digits. -/
def digitsVal (l : List Char) : Nat :=
  l.foldl (fun acc c => 10 * acc + (c.toNat - 48)) 0

/-- Exact value of the captured token, as Python float would parse it
(exact for every token without a fractional part). -/
def NumTok.val (t : NumTok) : ℚ :=
  if t.fp.isEmpty then (digitsVal t.ip : ℚ)
  else (digitsVal t.ip : ℚ) + (digitsVal t.fp : ℚ) / (10 : ℚ) ^ t.fp.length

/-- Match of the regex piece for a number at the head of the input:
one or more digits, then optionally a dot followed by one or more digits
(the dot is given back when no digit follows it). Returns the token and
the remaining input. -/
def matchNumber (l : List Char) : Option (NumTok × List Char) :=
  let ds := l.takeWhile Char.isDigit
  let rest := l.dropWhile Char.isDigit
  if ds.isEmpty then none
  else
    match rest with
    | '.' :: r2 =>
        let ds2 := r2.takeWhile Char.isDigit
        if ds2.isEmpty then some (⟨ds, []⟩, rest)
        else some (⟨ds, ds2⟩, r2.dropWhile Char.isDigit)
    | _ => some (⟨ds, []⟩, rest)

/-- Case-insensitive literal match: strips the (lower-case) pattern from
the head of the input. -/
def stripCI : List Char → List Char → Option (List Char)
  | [], l => some l
  | _, [] => none
  | p :: ps, c :: cs => if c.toLower == p then stripCI ps cs else none

/-- Match of the regex tail after the literal ch: the greedy optional apter
is tried first, then separators are consumed greedily and a numeric token
is required. -/
def chTail (l : List Char) : Option NumTok :=
  (match stripCI "apter".toList l with
   | some r => (matchNumber (r.dropWhile isSepChar)).map (fun x => x.1)
   | none => none)
  <|> (matchNumber (l.dropWhile isSepChar)).map (fun x => x.1)

/-- Model of re.search for the chapter pattern: positions are tried left to
right; at a position the pattern needs a case-insensitive ch and then
chTail. -/
def searchCh : List Char → Option NumTok
  | [] => none
  | c :: cs =>
      (match cs with
       | c2 :: cs2 =>
           if c.toLower == 'c' && c2.toLower == 'h' then chTail cs2 else none
       | [] => none)
      <|> searchCh cs

/-- _extract_chapter_number from scanner.py: the chapter-marker search,
else the anchored leading number, else 0.0. -/
def _extract_chapter_number (name : String) : ℚ :=
  match searchCh name.toList with
  | some t => t.val
  | none =>
      match matchNumber name.toList with
      | some (t, _) => t.val
      | none => 0

/-! ## scanner.py: cover picker -/

/-- Base names that mark an explicit cover file in _find_cover. -/
def cover_names : List String :=
  ["cover", "folder", "poster", "thumb", "thumbnail"]

/-- Loop condition of the first loop of _find_cover: the lower-cased stem
is a cover name and the lower-cased extension is a supported image type. -/
def isCoverName (f : String) : Bool :=
  cover_names.contains (pyLower (splitext f).1)
    && IMAGE_EXTENSIONS.contains (pyLower (splitext f).2)

/-- First loop of _find_cover: the first file satisfying isCoverName. -/
def findCoverNamed : List String → Option String
  | [] => none
  | f :: rest => if isCoverName f then some f else findCoverNamed rest

/-- Second loop of _find_cover: the first image file. -/
def findFirstImage : List String → Option String
  | [] => none
  | f :: rest => if is_image_file f then some f else findFirstImage rest

/-- _find_cover from scanner.py. -/
def _find_cover (fs : FS) (path : String) : Option String :=
  if fs.isdir path then
    let files := sortStrings (fs.listdir path)
    match findCoverNamed files with
    | some f => some (joinPath path f)
    | none =>
        match findFirstImage files with
        | some f => some (joinPath path f)
        | none => none
  else none

/-! ## scanner.py: scan_source and its persistence port

The DatabaseManager is external to the scanned core; the two calls the
scanner makes are modelled as an append-only emission log plus the
autoincrement row id that add_manga returns. -/

/-- One call to the persistence port. -/
inductive Emission
  | manga (title : String) (source_id : Int) (cover_path : String)
      (total_chapters : Nat)
  | chapter (manga_id : Nat) (number : ℚ) (file_path : String) (title : String)
      (page_count : Nat)
deriving DecidableEq, Repr

/-- State of the persistence port: next manga row id and the emissions so
far, oldest first. -/
structure DB where
  nextId : Nat
  events : List Emission
deriving DecidableEq, Repr

/-- Port state before any emission. -/
def DB.empty : DB := ⟨1, []⟩

/-- Model of DatabaseManager.add_manga: inserts a manga row and returns its
id. -/
def add_manga (db : DB) (title : String) (source_id : Int) (cover_path : String)
    (total_chapters : Nat) : Nat × DB :=
  (db.nextId,
   ⟨db.nextId + 1, db.events ++ [.manga title source_id cover_path total_chapters]⟩)

/-- Model of DatabaseManager.add_chapter: inserts a chapter row. -/
def add_chapter (db : DB) (manga_id : Nat) (number : ℚ) (file_path title : String)
    (page_count : Nat) : DB :=
  ⟨db.nextId, db.events ++ [.chapter manga_id number file_path title page_count]⟩

/-- One chapter dict accumulated in chapters_found. -/
structure ChapterRec where
  number : ℚ
  title : String
  path : String
  page_count : Nat
deriving DecidableEq, Repr

/-- Classification of one entry of a manga directory, as in the body of the
inner loop of scan_source: a recognized archive is a chapter whatever its
page count; a subdirectory is a chapter only when its page count is
positive; anything else is ignored. get_page_count can raise (through
list_cbz_pages) and scan_source does not catch. -/
def classifyEntry (fs : FS) (manga_dir entry : String) :
    Except PyErr (Option ChapterRec) := do
  let entry_path := joinPath manga_dir entry
  if is_cbz_file fs entry_path then
    let pc ← get_page_count fs entry_path
    return some ⟨_extract_chapter_number entry, (splitext entry).1, entry_path, pc⟩
  else if fs.isdir entry_path then
    let pc ← get_page_count fs entry_path
    if pc > 0 then
      return some ⟨_extract_chapter_number entry, entry, entry_path, pc⟩
    else
      return none
  else
    return none

/-- Inner loop of scan_source over the sorted entries of one manga
directory. -/
def discoverChapters (fs : FS) (manga_dir : String) :
    List String → Except PyErr (List ChapterRec)
  | [] => .ok []
  | e :: es => do
      let c ← classifyEntry fs manga_dir e
      let rest ← discoverChapters fs manga_dir es
      match c with
      | some ch => return ch :: rest
      | none => return rest

/-- Registration of the accumulated chapters of one manga. -/
def addChapters (mangaId : Nat) : DB → List ChapterRec → DB
  | db, [] => db
  | db, ch :: rest =>
      addChapters mangaId
        (add_chapter db mangaId ch.number ch.path ch.title ch.page_count) rest

/-- Outer loop of scan_source over the sorted children of the source root,
threading the port state and the two counters. -/
def scanMangas (fs : FS) (source_id : Int) (source_path : String) :
    List String → DB → Nat → Nat → Except PyErr (DB × Nat × Nat)
  | [], db, mc, cc => .ok (db, mc, cc)
  | manga_name :: rest, db, mc, cc => do
      let manga_dir := joinPath source_path manga_name
      if fs.isdir manga_dir then
        let chs ← discoverChapters fs manga_dir (sortStrings (fs.listdir manga_dir))
        if chs.isEmpty then
          scanMangas fs source_id source_path rest db mc cc
        else
          let cover := _find_cover fs manga_dir
          let idDb := add_manga db manga_name source_id (cover.getD "") chs.length
          let db2 := addChapters idDb.1 idDb.2 chs
          scanMangas fs source_id source_path rest db2 (mc + 1) (cc + chs.length)
      else
        scanMangas fs source_id source_path rest db mc cc

/-- scan_source from scanner.py: the returned dict of counts is the final
pair, and the port state carries the emissions. -/
def scan_source (fs : FS) (db : DB) (source_id : Int) (source_path : String) :
    Except PyErr (DB × Nat × Nat) :=
  if fs.isdir source_path then
    scanMangas fs source_id source_path (sortStrings (fs.listdir source_path)) db 0 0
  else
    .ok (db, 0, 0)

/-! ## Thumbnail geometry

The body of the try block of get_page_thumbnail is executed by the external
Pillow library (Image.open, Image.thumbnail with the LANCZOS filter, JPEG
re-encode at quality 85). Only its geometry is modelled here. -/

/-- Modelled from the spec: the bounded-size preview contract of the
thumbnail generator (section 4.2), realized by Pillow Image.thumbnail. Its
rounding of a scaled dimension keeps whichever of floor and ceiling has the
aspect ratio closer (floor on ties, as Python min takes the first minimum),
and never goes below 1. Exact rational arithmetic stands in for IEEE
doubles. -/
def round_aspect (q : ℚ) (key : ℤ → ℚ) : ℤ :=
  max (if key ⌊q⌋ ≤ key ⌈q⌉ then ⌊q⌋ else ⌈q⌉) 1

/-- Modelled from the spec: the output dimensions of the thumbnail
generator (section 4.2) for a decoded input of w by h under the bounds
maxW by maxH, as computed by Pillow Image.thumbnail: unchanged when the
image already fits, otherwise the binding bound is kept and the other
dimension is rounded from the preserved aspect ratio. -/
def thumbnail_size (w h maxW maxH : ℕ) : ℕ × ℕ :=
  if maxW ≥ w ∧ maxH ≥ h then (w, h)
  else
    let aspect : ℚ := (w : ℚ) / (h : ℚ)
    if (maxW : ℚ) / (maxH : ℚ) ≥ aspect then
      ((round_aspect ((maxH : ℚ) * aspect)
          (fun n => |aspect - (n : ℚ) / (maxH : ℚ)|)).toNat, maxH)
    else
      (maxW,
       (round_aspect ((maxW : ℚ) / aspect)
          (fun n => if n = 0 then 0 else |aspect - (maxW : ℚ) / (n : ℚ)|)).toNat)

/-! ## Spec-side definitions

Definitions in this section follow the wording of the specification, to be
compared with the embedded code above. -/

/-- Unified page listing of the Page Source interface (section 4.1 of the
spec): archive entries for an Archive variant, folder images for a
Directory variant, empty for Unsupported. -/
def listPages (fs : FS) (p : String) : Except PyErr (List String) :=
  if is_cbz_file fs p then list_cbz_pages fs p
  else if fs.isdir p then .ok (list_folder_pages fs p)
  else .ok []

/-- Match of the chapter-marker pattern at one given position of the name:
the literal ch (case insensitive), optionally followed by apter, then
optional separators, then a numeric token. The separator class here is the
one the code's regex uses (isSepChar: ASCII whitespace plus dot,
underscore, hyphen), which is wider than the four characters the claim
lists — this is the amended rule 1. -/
def chAtPos (l : List Char) (i : Nat) : Option NumTok :=
  match l.drop i with
  | c :: c2 :: r =>
      if c.toLower == 'c' && c2.toLower == 'h' then chTail r else none
  | _ => none

/-- Rule 1 as amended: a search anywhere in the name, i.e. the match at
the leftmost position where the pattern (with the code's separator class)
matches. -/
def specRule1 (l : List Char) : Option NumTok :=
  (List.range l.length).findSome? (chAtPos l)

/-- Rule 2 of the heuristic as the spec words it: the name begins with a
numeric token. -/
def specRule2 (l : List Char) : Option NumTok :=
  (matchNumber l).map (fun x => x.1)

/-- Chapter-number heuristic as amended: rule 1 (with the code's separator
class), else rule 2, else 0.0, in strict precedence. -/
def specExtract (name : String) : ℚ :=
  match specRule1 name.toList with
  | some t => t.val
  | none =>
      match specRule2 name.toList with
      | some t => t.val
      | none => 0

/-- Separator characters exactly as the claim (and spec section 4.4) lists
them for rule 1: space, dot, underscore, hyphen — and nothing else. -/
def isSepClaim (c : Char) : Bool :=
  c == ' ' || c == '.' || c == '_' || c == '-'

/-- Tail of rule 1 taken literally from the claim's words: optional apter,
then optional separators from the claim's four-character class, then a
numeric token. -/
def chTailClaim (l : List Char) : Option NumTok :=
  (match stripCI "apter".toList l with
   | some r => (matchNumber (r.dropWhile isSepClaim)).map (fun x => x.1)
   | none => none)
  <|> (matchNumber (l.dropWhile isSepClaim)).map (fun x => x.1)

/-- Match of the claim-literal rule 1 pattern at one position. -/
def chAtPosClaim (l : List Char) (i : Nat) : Option NumTok :=
  match l.drop i with
  | c :: c2 :: r =>
      if c.toLower == 'c' && c2.toLower == 'h' then chTailClaim r else none
  | _ => none

/-- Rule 1 exactly as the claim words it: the leftmost match of the
pattern whose separators are only space, dot, underscore and hyphen. -/
def specRule1Claim (l : List Char) : Option NumTok :=
  (List.range l.length).findSome? (chAtPosClaim l)

/-- Chapter-number heuristic exactly as the claim words it: the
claim-literal rule 1, else rule 2, else 0.0, in strict precedence. -/
def specExtractClaim (name : String) : ℚ :=
  match specRule1Claim name.toList with
  | some t => t.val
  | none =>
      match specRule2 name.toList with
      | some t => t.val
      | none => 0

/-- Property of an emission demanded by the scan invariant of the spec
(section 3): an emitted manga has at least one chapter, and an emitted
chapter is either a recognized archive (accepted at any page count) or has
a positive page count (the directory variant). -/
def emissionOk (fs : FS) : Emission → Prop
  | .manga _ _ _ total => 0 < total
  | .chapter _ _ file_path _ page_count =>
      is_cbz_file fs file_path = true ∨ 0 < page_count

/-- Filesystems in which no file passes the is_zipfile probe while being
unopenable: the condition under which scanning is exception-free. -/
def noTruncZip (fs : FS) : Prop :=
  ∀ f ∈ fs.files, f.2.zip ≠ ZipView.truncated

instance (fs : FS) : Decidable (noTruncZip fs) :=
  inferInstanceAs (Decidable (∀ f ∈ fs.files, f.2.zip ≠ ZipView.truncated))

/-- Port call recorded for one discovered chapter. -/
def chapterEmission (manga_id : Nat) (ch : ChapterRec) : Emission :=
  .chapter manga_id ch.number ch.path ch.title ch.page_count

/-! ## Concrete filesystems used as test inputs and counterexamples -/

/-- Source root of the scan scenario of the spec: Alpha holds a three-page
archive and a zero-page archive, Beta is empty. -/
def alphaFS : FS :=
  { files :=
      [("src/Alpha/Chapter 01.cbz",
        ⟨[1], .valid [("p1.jpg", some [11]), ("p2.jpg", some [12]),
                      ("p3.jpg", some [13])]⟩),
       ("src/Alpha/Chapter 02.cbz", ⟨[2], .valid []⟩)],
    dirs :=
      [("src", ["Alpha", "Beta"]),
       ("src/Alpha", ["Chapter 01.cbz", "Chapter 02.cbz"]),
       ("src/Beta", [])] }

/-- Source root whose single manga directory holds one archive whose
end-of-central-directory record is intact but whose central directory is
truncated: the is_zipfile probe passes, opening raises BadZipFile. -/
def badFS : FS :=
  { files := [("src/Gamma/bad.cbz", ⟨[0], .truncated⟩)],
    dirs := [("src", ["Gamma"]), ("src/Gamma", ["bad.cbz"])] }

/-- Valid archive with an unreadable first entry and a readable second
entry. -/
def corruptFS : FS :=
  { files := [("m/c.cbz", ⟨[0], .valid [("a.jpg", none), ("b.jpg", some [7])]⟩)],
    dirs := [] }

/-- Folder chapter with two pages. -/
def folderFS : FS :=
  { files :=
      [("m/ch1/page_001.jpg", ⟨[21], .notZip⟩),
       ("m/ch1/page_002.jpg", ⟨[22], .notZip⟩)],
    dirs := [("m", ["ch1"]), ("m/ch1", ["page_001.jpg", "page_002.jpg"])] }

/-- Source root whose manga directory mixes one good chapter archive with
two entries that fail classification (a text file, and a file with an
archive extension that does not pass the ZIP probe). -/
def junkFS : FS :=
  { files :=
      [("src/Delta/notes.txt", ⟨[9], .notZip⟩),
       ("src/Delta/fake.cbz", ⟨[3], .notZip⟩),
       ("src/Delta/Chapter 01.cbz", ⟨[1], .valid [("p1.jpg", some [11])]⟩)],
    dirs := [("src", ["Delta"]), ("src/Delta", ["Chapter 01.cbz", "fake.cbz", "notes.txt"])] }

/-- Directories of the cover-picker scenario: one with an explicit cover,
one with plain pages only, one without any image. -/
def coverFS : FS :=
  { files := [],
    dirs :=
      [("d1", ["page_001.jpg", "cover.jpg"]),
       ("d2", ["page_001.jpg", "page_002.jpg"]),
       ("d3", ["notes.txt"])] }

/-! ## Order facts about the string comparison used for sorting -/

theorem listLeB_total : ∀ as bs : List Char, listLeB as bs = true ∨ listLeB bs as = true
  | [], _ => .inl rfl
  | _ :: _, [] => .inr rfl
  | a :: as, b :: bs => by
      rcases Nat.lt_trichotomy a.toNat b.toNat with h | h | h
      · exact .inl (by simp [listLeB, h])
      · rcases listLeB_total as bs with ih | ih
        · exact .inl (by simp [listLeB, h, ih, Nat.lt_irrefl])
        · exact .inr (by simp [listLeB, h, ih, Nat.lt_irrefl])
      · exact .inr (by simp [listLeB, h])

theorem listLeB_trans : ∀ as bs cs : List Char,
    listLeB as bs = true → listLeB bs cs = true → listLeB as cs = true
  | [], _, _, _, _ => rfl
  | _ :: _, [], _, h1, _ => by simp [listLeB] at h1
  | _ :: _, _ :: _, [], _, h2 => by simp [listLeB] at h2
  | a :: as, b :: bs, c :: cs, h1, h2 => by
      simp only [listLeB] at h1 h2 ⊢
      rcases Nat.lt_trichotomy a.toNat b.toNat with hab | hab | hab
      · rcases Nat.lt_trichotomy b.toNat c.toNat with hbc | hbc | hbc
        · simp [Nat.lt_trans hab hbc]
        · simp [hbc ▸ hab]
        · simp [hbc, Nat.lt_asymm hbc] at h2
      · rcases Nat.lt_trichotomy b.toNat c.toNat with hbc | hbc | hbc
        · simp [hab ▸ hbc]
        · simp only [hab, hbc, Nat.lt_irrefl, if_false] at h1 h2 ⊢
          exact listLeB_trans as bs cs h1 h2
        · simp [hbc, Nat.lt_asymm hbc] at h2
      · simp [hab, Nat.lt_asymm hab] at h1

instance : IsTotal String strLe :=
  ⟨fun a b => listLeB_total a.toList b.toList⟩

instance : IsTrans String strLe :=
  ⟨fun a b c => listLeB_trans a.toList b.toList c.toList⟩

theorem sortStrings_sorted (l : List String) : (sortStrings l).Sorted strLe :=
  List.sorted_insertionSort strLe l

theorem sortStrings_perm (l : List String) : (sortStrings l).Perm l :=
  List.perm_insertionSort strLe l

/-! ## The regex search is the leftmost positional match -/

theorem findSome?_map_comp {α β γ : Type} (g : α → β) (f : β → Option γ) :
    ∀ l : List α, (l.map g).findSome? f = l.findSome? (fun a => f (g a))
  | [] => rfl
  | a :: as => by
      simp only [List.map_cons, List.findSome?_cons]
      cases f (g a) <;> simp [findSome?_map_comp g f as]

theorem chAtPos_succ (c : Char) (cs : List Char) (i : Nat) :
    chAtPos (c :: cs) (i + 1) = chAtPos cs i := rfl

theorem searchCh_eq_specRule1 : ∀ l : List Char, searchCh l = specRule1 l
  | [] => rfl
  | c :: cs => by
      have ih := searchCh_eq_specRule1 cs
      simp only [specRule1, List.length_cons, List.range_succ_eq_map,
        List.findSome?_cons, findSome?_map_comp]
      simp only [Nat.succ_eq_add_one, chAtPos_succ]
      rw [show (List.range cs.length).findSome? (chAtPos cs) = specRule1 cs from rfl,
        ← ih]
      simp only [searchCh]
      rcases cs with _ | ⟨c2, cs2⟩
      · simp [chAtPos, searchCh]
      · rw [show chAtPos (c :: c2 :: cs2) 0 =
            (if c.toLower == 'c' && c2.toLower == 'h' then chTail cs2 else none)
            from rfl]
        by_cases hch : (c.toLower == 'c' && c2.toLower == 'h') = true
        · simp only [hch, if_true]
          cases chTail cs2 <;> simp
        · simp only [Bool.not_eq_true] at hch
          simp [hch]

/-- Counterexample to claim C4: the claim lists rule 1's separator class
as exactly space, dot, underscore and hyphen, but the code's regex class
also accepts the other ASCII whitespace characters; on a name with a tab
between the marker and the number the code returns 5.0 while the claim's
rules, taken literally, fall through to 0.0. -/
theorem C4_heuristic_rules_counterexample :
    _extract_chapter_number "ch\t5" = 5 ∧ specExtractClaim "ch\t5" = 0 := by
  constructor <;> decide

/-- Claim C4 as amended: the chapter-number heuristic evaluates exactly
three rules in strict precedence, first match winning: rule 1 is the
case-insensitive search anywhere in the name for ch, optional apter,
optional separators drawn from the regex class of ASCII whitespace plus
dot, underscore and hyphen (wider than the claim's four listed
characters), and a numeric token, whose value is returned; rule 2,
otherwise, a numeric token at the start of the name; rule 3, otherwise
0.0. In particular rule 1 wins over a leading bare number when both are
present. -/
theorem C4_heuristic_rules :
    (∀ name : String, _extract_chapter_number name = specExtract name)
    ∧ _extract_chapter_number "12 ch 5" = 5
    ∧ _extract_chapter_number "7 - Title" = 7
    ∧ _extract_chapter_number "Extra" = 0 := by
  refine ⟨fun name => ?_, by decide, by decide, by decide⟩
  unfold _extract_chapter_number specExtract specRule2
  rw [searchCh_eq_specRule1]
  cases specRule1 name.toList
  · cases matchNumber name.toList <;> simp
  · simp

/-- Claim C5: the heuristic's values on the spec's five examples. The code
disagrees with the claim on c003: the regex demands the literal ch, so
c003 falls through both rules and yields 0.0, not the 3.0 that the claim
(and the function's own docstring, which lists c003 as a supported
pattern) promises. The other four examples hold. -/
theorem C5_heuristic_examples :
    _extract_chapter_number "Chapter 05" = 5
    ∧ _extract_chapter_number "Ch.12" = 12
    ∧ _extract_chapter_number "c003" = 0
    ∧ _extract_chapter_number "001 - Title" = 1
    ∧ _extract_chapter_number "Extra Stories" = 0 :=
  ⟨by decide, by decide, by decide, by decide, by decide⟩

/-! ## The cover picker loops are first-match searches -/

theorem findCoverNamed_eq_find? : ∀ l : List String,
    findCoverNamed l = l.find? isCoverName
  | [] => rfl
  | f :: rest => by
      simp only [findCoverNamed, List.find?_cons]
      by_cases h : isCoverName f <;> simp [h, findCoverNamed_eq_find? rest]

theorem findFirstImage_eq_find? : ∀ l : List String,
    findFirstImage l = l.find? is_image_file
  | [] => rfl
  | f :: rest => by
      simp only [findFirstImage, List.find?_cons]
      by_cases h : is_image_file f <;> simp [h, findFirstImage_eq_find? rest]

/-- Claim C8: for a manga directory, the cover picker returns the
name-sorted first entry whose lower-cased base name is a cover name with a
recognized image extension; failing that, the name-sorted first entry with
a recognized image extension; failing that, none. The three concrete
scenarios of the spec are instances. -/
theorem C8_cover_picker :
    (∀ fs p, fs.isdir p = true →
      _find_cover fs p =
        (((sortStrings (fs.listdir p)).find? isCoverName).map (joinPath p) <|>
         ((sortStrings (fs.listdir p)).find? is_image_file).map (joinPath p)))
    ∧ _find_cover coverFS "d1" = some "d1/cover.jpg"
    ∧ _find_cover coverFS "d2" = some "d2/page_001.jpg"
    ∧ _find_cover coverFS "d3" = none := by
  refine ⟨fun fs p h => ?_, by decide, by decide, by decide⟩
  simp only [_find_cover, h, eq_self_iff_true, if_true,
    findCoverNamed_eq_find?, findFirstImage_eq_find?]
  cases (sortStrings (fs.listdir p)).find? isCoverName <;>
    cases (sortStrings (fs.listdir p)).find? is_image_file <;>
      simp

/-- Witness for claim C8 at the concrete directory d1 of the cover
scenario. -/
theorem C8_cover_picker_witness :
    _find_cover coverFS "d1" =
      (((sortStrings (coverFS.listdir "d1")).find? isCoverName).map (joinPath "d1") <|>
       ((sortStrings (coverFS.listdir "d1")).find? is_image_file).map (joinPath "d1")) :=
  C8_cover_picker.1 coverFS "d1" (by decide)

/-! ## Reduction lemmas for the exception monad -/

theorem ebind_ok {ε α β : Type} (a : α) (f : α → Except ε β) :
    (Except.ok a : Except ε α) >>= f = f a := rfl

theorem ebind_error {ε α β : Type} (e : ε) (f : α → Except ε β) :
    (Except.error e : Except ε α) >>= f = Except.error e := rfl

theorem epure {ε α : Type} (a : α) : (pure a : Except ε α) = Except.ok a := rfl

/-! ## Count and listing agree (claim C2) -/

/-- Claim C2: for every path the page count equals the length of the
unified page listing (in the exception monad: the two calls fail
together), and for a path that is neither a recognized archive nor a
directory both reduce to zero and empty without failing. -/
theorem C2_count_eq_listPages :
    (∀ fs p, get_page_count fs p = (listPages fs p).map List.length)
    ∧ (∀ fs p, is_cbz_file fs p = false → fs.isdir p = false →
        get_page_count fs p = .ok 0 ∧ listPages fs p = .ok []) := by
  constructor
  · intro fs p
    unfold get_page_count listPages
    by_cases hc : is_cbz_file fs p = true
    · simp only [hc, if_true]
      cases hl : list_cbz_pages fs p <;>
        simp [hl, ebind_ok, ebind_error, epure, Except.map]
    · simp only [Bool.not_eq_true] at hc
      by_cases hd : fs.isdir p = true <;>
        simp [hc, hd, epure, Except.map]
  · intro fs p hc hd
    unfold get_page_count listPages
    simp [hc, hd, epure]

/-- Witness for claim C2 at a path that names nothing. -/
theorem C2_count_eq_listPages_witness :
    get_page_count folderFS "nowhere" = .ok 0 ∧ listPages folderFS "nowhere" = .ok [] :=
  C2_count_eq_listPages.2 folderFS "nowhere" (by decide) (by decide)

/-! ## Page retrieval by index (claim C3) -/

/-- Claim C3: on a valid chapter path, readPage returns the bytes of the
i-th entry of the ascending sorted page list for every in-range index
(archive entries through the archive reader, folder entries through the
file reader); every out-of-range index, negative indexes included, and
every unsupported path yield None; and the page lists of both variants
are sorted ascending. -/
theorem C3_read_page_indexing :
    (∀ fs p (i : Int) es pages b,
        fs.zipView p = ZipView.valid es →
        is_cbz_file fs p = true →
        list_cbz_pages fs p = .ok pages →
        0 ≤ i → i < (pages.length : Int) →
        zipReadEntry es (pages.getD i.toNat "") = .ok b →
        get_page_image fs p i = .ok (some b))
    ∧ (∀ fs p (i : Int) fd,
        is_cbz_file fs p = false →
        fs.isdir p = true →
        0 ≤ i → i < ((list_folder_pages fs p).length : Int) →
        fs.files.lookup ((list_folder_pages fs p).getD i.toNat "") = some fd →
        get_page_image fs p i = .ok (some fd.bytes))
    ∧ (∀ fs p (i : Int),
        is_cbz_file fs p = false → fs.isdir p = false →
        get_page_image fs p i = .ok none)
    ∧ (∀ fs p (i : Int) pages,
        is_cbz_file fs p = true →
        list_cbz_pages fs p = .ok pages →
        (i < 0 ∨ (pages.length : Int) ≤ i) →
        get_page_image fs p i = .ok none)
    ∧ (∀ fs p (i : Int),
        is_cbz_file fs p = false → fs.isdir p = true →
        (i < 0 ∨ ((list_folder_pages fs p).length : Int) ≤ i) →
        get_page_image fs p i = .ok none)
    ∧ (∀ fs p pages, list_cbz_pages fs p = .ok pages → pages.Sorted strLe)
    ∧ (∀ fs p, (list_folder_pages fs p).Sorted strLe) := by
  refine ⟨?_, ?_, ?_, ?_, ?_, ?_, ?_⟩
  · intro fs p i es pages b hview hc hl hle hlt hread
    unfold get_page_image
    simp only [hc, if_true, hl, ebind_ok]
    rw [if_pos ⟨hle, hlt⟩]
    unfold extract_cbz_page
    simp only [zipOpen, hview, ebind_ok]
    rw [hread]
  · intro fs p i fd hc hd hle hlt hlk
    unfold get_page_image
    simp only [hc, hd, Bool.false_eq_true, if_false, if_true]
    rw [if_pos ⟨hle, hlt⟩]
    simp only [List.getD_eq_getElem?_getD] at hlk
    simp [readFileBytes, hlk, ebind_ok, epure]
  · intro fs p i hc hd
    unfold get_page_image
    simp [hc, hd, epure]
  · intro fs p i pages hc hl hor
    unfold get_page_image
    simp only [hc, if_true, hl, ebind_ok]
    rw [if_neg (by rintro ⟨h1, h2⟩; rcases hor with h | h <;> omega)]
    rfl
  · intro fs p i hc hd hor
    unfold get_page_image
    simp only [hc, hd, Bool.false_eq_true, if_false, if_true]
    rw [if_neg (by rintro ⟨h1, h2⟩; rcases hor with h | h <;> omega)]
    rfl
  · intro fs p pages hl
    unfold list_cbz_pages at hl
    cases hz : zipOpen fs p with
    | error e => rw [hz] at hl; simp [ebind_error] at hl
    | ok es =>
        rw [hz] at hl
        simp only [ebind_ok, epure, Except.ok.injEq] at hl
        rw [← hl]
        exact sortStrings_sorted _
  · intro fs p
    unfold list_folder_pages
    by_cases hd : fs.isdir p = true
    · simp only [hd, if_true]
      exact sortStrings_sorted _
    · simp only [Bool.not_eq_true] at hd
      simp [hd]

/-- Witness for claim C3 at the concrete archive with a readable second
entry. -/
theorem C3_read_page_indexing_witness :
    get_page_image corruptFS "m/c.cbz" 1 = .ok (some [7]) :=
  C3_read_page_indexing.1 corruptFS "m/c.cbz" 1
    [("a.jpg", none), ("b.jpg", some [7])] ["a.jpg", "b.jpg"] [7]
    (by decide) (by decide) (by decide) (by decide) (by decide) (by decide)

/-! ## Corrupt archives in readPage (claim C7) -/

/-- Counterexample to claim C7: on an archive that passes the is_zipfile
probe but whose central directory cannot be parsed, readPage does not
return a typed CorruptArchive value; the BadZipFile raised inside the
uncaught page-listing call escapes readPage. -/
theorem C7_counterexample :
    get_page_image badFS "src/Gamma/bad.cbz" 0 = .error PyErr.badZipFile := by
  decide

/-- Claim C7 as amended: an archive passing the is_zipfile probe whose
central directory cannot be parsed makes readPage raise BadZipFile (the
exception escapes); and when only a selected entry is unreadable,
readPage returns None — the same value as for an absent page — rather
than a distinct typed failure. -/
theorem C7_amended_corrupt_archive :
    (∀ fs p (i : Int),
        is_cbz_file fs p = true → fs.zipView p = ZipView.truncated →
        get_page_image fs p i = .error PyErr.badZipFile)
    ∧ get_page_image corruptFS "m/c.cbz" 0 = .ok none
    ∧ get_page_image corruptFS "m/c.cbz" 5 = .ok none := by
  refine ⟨?_, by decide, by decide⟩
  intro fs p i hc hview
  unfold get_page_image
  simp [hc, list_cbz_pages, zipOpen, hview, ebind_error]

/-- Witness for claim C7's amended theorem at the truncated archive and a
further index. -/
theorem C7_amended_corrupt_archive_witness :
    get_page_image badFS "src/Gamma/bad.cbz" 3 = .error PyErr.badZipFile :=
  C7_amended_corrupt_archive.1 badFS "src/Gamma/bad.cbz" 3 (by decide) (by decide)

/-! ## Thumbnail failure collapse (claim C10) -/

/-- Claim C10 (implicit): the thumbnail call returns None both when the
page does not exist (readPage returns None) and when the page bytes exist
but the thumbnailing attempt fails, so its caller cannot distinguish a
missing page from a corrupt image. -/
theorem C10_thumbnail_collapse :
    ∀ (thumbAttempt : Bytes → Option Bytes) (fs : FS) (p : String) (i : Int),
      (get_page_image fs p i = .ok none →
        get_page_thumbnail thumbAttempt fs p i = .ok none)
      ∧ (∀ d, get_page_image fs p i = .ok (some d) → thumbAttempt d = none →
          get_page_thumbnail thumbAttempt fs p i = .ok none) := by
  intro t fs p i
  constructor
  · intro h
    unfold get_page_thumbnail
    rw [h, ebind_ok]
    rfl
  · intro d h ht
    unfold get_page_thumbnail
    rw [h, ebind_ok]
    simp [ht, epure]

/-- Witness for claim C10: a decodable-page failure (the attempt function
that always fails) yields the same None as a missing page. -/
theorem C10_thumbnail_collapse_witness :
    get_page_thumbnail (fun _ => none) folderFS "m/ch1" 0 = .ok none :=
  (C10_thumbnail_collapse (fun _ => none) folderFS "m/ch1" 0).2 [21] (by decide) rfl

/-! ## Scan machinery lemmas -/

theorem mem_of_lookup_eq_some {α β : Type} [DecidableEq α] :
    ∀ {l : List (α × β)} {a : α} {b : β}, l.lookup a = some b → (a, b) ∈ l := by
  intro l
  induction l with
  | nil => intro a b h; simp [List.lookup] at h
  | cons kv rest ih =>
      intro a b h
      obtain ⟨k, v⟩ := kv
      simp only [List.lookup] at h
      by_cases hk : a = k
      · subst hk
        simp only [beq_self_eq_true] at h
        obtain rfl : v = b := by simpa using h
        exact List.mem_cons_self _ _
      · rw [show (a == k) = false from beq_eq_false_iff_ne.mpr hk] at h
        exact List.mem_cons_of_mem _ (ih h)

theorem zipView_ne_truncated {fs : FS} (h : noTruncZip fs) (p : String) :
    fs.zipView p ≠ ZipView.truncated := by
  intro hbad
  unfold FS.zipView at hbad
  cases hl : fs.files.lookup p with
  | none => rw [hl] at hbad; simp at hbad
  | some fd => rw [hl] at hbad; exact h (p, fd) (mem_of_lookup_eq_some hl) hbad

theorem get_page_count_ok {fs : FS} (h : noTruncZip fs) (p : String) :
    ∃ n, get_page_count fs p = .ok n := by
  unfold get_page_count
  by_cases hc : is_cbz_file fs p = true
  · simp only [hc, if_true]
    cases hv : fs.zipView p with
    | notZip =>
        exfalso
        unfold is_cbz_file is_zipfile at hc
        rw [hv] at hc
        simp at hc
    | truncated => exact absurd hv (zipView_ne_truncated h p)
    | valid es =>
        refine ⟨(sortStrings ((es.map (fun x => x.1)).filter
          (fun nm => is_image_file nm && !(strStartsWith nm "__MACOSX")))).length, ?_⟩
        simp only [list_cbz_pages, zipOpen, hv, ebind_ok, epure]
  · simp only [Bool.not_eq_true] at hc
    by_cases hd : fs.isdir p = true
    · exact ⟨(list_folder_pages fs p).length, by simp [hc, hd, epure]⟩
    · simp only [Bool.not_eq_true] at hd
      exact ⟨0, by simp [hc, hd, epure]⟩

theorem classifyEntry_ok {fs : FS} (h : noTruncZip fs) (d e : String) :
    ∃ oc, classifyEntry fs d e = .ok oc := by
  unfold classifyEntry
  obtain ⟨n, hn⟩ := get_page_count_ok h (joinPath d e)
  by_cases hc : is_cbz_file fs (joinPath d e) = true
  · exact ⟨some ⟨_extract_chapter_number e, (splitext e).1, joinPath d e, n⟩,
      by simp only [hc, if_true, hn, ebind_ok, epure]⟩
  · simp only [Bool.not_eq_true] at hc
    by_cases hd : fs.isdir (joinPath d e) = true
    · by_cases hpos : n > 0
      · exact ⟨some ⟨_extract_chapter_number e, e, joinPath d e, n⟩,
          by simp [hc, hd, hn, hpos, ebind_ok, epure]⟩
      · exact ⟨none, by simp [hc, hd, hn, hpos, ebind_ok, epure]⟩
    · simp only [Bool.not_eq_true] at hd
      exact ⟨none, by simp [hc, hd, epure]⟩

theorem discoverChapters_ok {fs : FS} (h : noTruncZip fs) (d : String) :
    ∀ es, ∃ l, discoverChapters fs d es = .ok l
  | [] => ⟨[], rfl⟩
  | e :: es => by
      obtain ⟨oc, hoc⟩ := classifyEntry_ok h d e
      obtain ⟨l, hl⟩ := discoverChapters_ok h d es
      cases oc with
      | none => exact ⟨l, by simp [discoverChapters, hoc, hl, ebind_ok, epure]⟩
      | some ch =>
          exact ⟨ch :: l, by simp [discoverChapters, hoc, hl, ebind_ok, epure]⟩

theorem scanMangas_ok {fs : FS} (h : noTruncZip fs) (sid : Int) (sp : String) :
    ∀ names db mc cc, ∃ r, scanMangas fs sid sp names db mc cc = .ok r
  | [], db, mc, cc => ⟨(db, mc, cc), rfl⟩
  | n :: ns, db, mc, cc => by
      by_cases hd : fs.isdir (joinPath sp n) = true
      · obtain ⟨l, hl⟩ :=
          discoverChapters_ok h (joinPath sp n) (sortStrings (fs.listdir (joinPath sp n)))
        by_cases he : l.isEmpty = true
        · obtain ⟨r, hr⟩ := scanMangas_ok h sid sp ns db mc cc
          refine ⟨r, ?_⟩
          simp only [scanMangas]
          rw [if_pos hd, hl, ebind_ok, if_pos he]
          exact hr
        · obtain ⟨r, hr⟩ := scanMangas_ok h sid sp ns
            (addChapters (add_manga db n sid ((_find_cover fs (joinPath sp n)).getD "")
                l.length).1
              (add_manga db n sid ((_find_cover fs (joinPath sp n)).getD "") l.length).2 l)
            (mc + 1) (cc + l.length)
          refine ⟨r, ?_⟩
          simp only [scanMangas]
          rw [if_pos hd, hl, ebind_ok, if_neg he]
          exact hr
      · obtain ⟨r, hr⟩ := scanMangas_ok h sid sp ns db mc cc
        refine ⟨r, ?_⟩
        simp only [scanMangas]
        rw [if_neg hd]
        exact hr

/-- Counterexample to claim C6: a source tree holding a single archive
whose central directory is truncated makes the scan raise BadZipFile; the
exception escapes scan_source and no counts are returned. -/
theorem C6_counterexample :
    scan_source badFS DB.empty 1 "src" = .error PyErr.badZipFile := by decide

/-- Claim C6 as amended: entries that fail the classification probes (not
a recognized archive, not a directory — including a file with an archive
extension that fails the ZIP probe) are skipped and the scan continues and
returns its counts; the scan raises no exception provided no file passes
the is_zipfile probe while being unopenable; but such a truncated archive
makes BadZipFile escape the scan (see the counterexample). -/
theorem C6_amended_failure_isolation :
    (∀ (fs : FS) (db : DB) (sid : Int) (sp : String), noTruncZip fs →
        ∃ r, scan_source fs db sid sp = .ok r)
    ∧ scan_source junkFS DB.empty 1 "src" =
        .ok (⟨2, [.manga "Delta" 1 "" 1,
                  .chapter 1 1 "src/Delta/Chapter 01.cbz" "Chapter 01" 1]⟩, 1, 1) := by
  constructor
  · intro fs db sid sp hnt
    unfold scan_source
    by_cases hd : fs.isdir sp = true
    · simp only [hd, if_true]
      exact scanMangas_ok hnt sid sp _ db 0 0
    · simp only [Bool.not_eq_true] at hd
      exact ⟨(db, 0, 0), by simp [hd]⟩
  · decide

/-- Witness for claim C6's amended theorem: the mixed-content source tree
satisfies the no-truncated-archive condition, so its scan succeeds. -/
theorem C6_amended_failure_isolation_witness :
    ∃ r, scan_source junkFS DB.empty 1 "src" = .ok r :=
  C6_amended_failure_isolation.1 junkFS DB.empty 1 "src" (by decide)

/-! ## Emission invariants of the scan (claim C1) -/

theorem classifyEntry_chapterOk {fs : FS} {d e : String} {ch : ChapterRec}
    (h : classifyEntry fs d e = .ok (some ch)) :
    is_cbz_file fs ch.path = true ∨ 0 < ch.page_count := by
  simp only [classifyEntry] at h
  by_cases hc : is_cbz_file fs (joinPath d e) = true
  · rw [if_pos hc] at h
    cases hpc : get_page_count fs (joinPath d e) with
    | error err => rw [hpc, ebind_error] at h; simp at h
    | ok n =>
        rw [hpc, ebind_ok] at h
        simp only [epure, Except.ok.injEq, Option.some.injEq] at h
        subst h
        exact .inl hc
  · rw [if_neg hc] at h
    by_cases hd : fs.isdir (joinPath d e) = true
    · rw [if_pos hd] at h
      cases hpc : get_page_count fs (joinPath d e) with
      | error err => rw [hpc, ebind_error] at h; simp at h
      | ok n =>
          rw [hpc, ebind_ok] at h
          by_cases hpos : n > 0
          · rw [if_pos hpos] at h
            simp only [epure, Except.ok.injEq, Option.some.injEq] at h
            subst h
            exact .inr hpos
          · rw [if_neg hpos] at h
            simp [epure] at h
    · rw [if_neg hd] at h
      simp [epure] at h

theorem discoverChapters_mem {fs : FS} {d : String} :
    ∀ {es : List String} {l : List ChapterRec},
      discoverChapters fs d es = .ok l →
      ∀ ch ∈ l, is_cbz_file fs ch.path = true ∨ 0 < ch.page_count := by
  intro es
  induction es with
  | nil =>
      intro l h ch hch
      simp only [discoverChapters, Except.ok.injEq] at h
      subst h
      simp at hch
  | cons e es ih =>
      intro l h ch hch
      simp only [discoverChapters] at h
      cases hoc : classifyEntry fs d e with
      | error err => rw [hoc, ebind_error] at h; simp at h
      | ok oc =>
          rw [hoc, ebind_ok] at h
          cases hrest : discoverChapters fs d es with
          | error err => rw [hrest, ebind_error] at h; simp at h
          | ok rest =>
              rw [hrest, ebind_ok] at h
              cases oc with
              | none =>
                  simp only [epure, Except.ok.injEq] at h
                  subst h
                  exact ih hrest ch hch
              | some ch0 =>
                  simp only [epure, Except.ok.injEq] at h
                  subst h
                  cases hch with
                  | head => exact classifyEntry_chapterOk hoc
                  | tail _ htail => exact ih hrest ch htail

theorem addChapters_events (mid : Nat) :
    ∀ (db : DB) (l : List ChapterRec),
      (addChapters mid db l).events = db.events ++ l.map (chapterEmission mid)
  | _, [] => by simp [addChapters]
  | db, ch :: rest => by
      rw [addChapters, addChapters_events mid _ rest]
      simp [add_chapter, chapterEmission, List.append_assoc]

theorem scanMangas_emissionOk {fs : FS} {sid : Int} {sp : String} :
    ∀ {names : List String} {db : DB} {mc cc : Nat} {db' : DB} {mc' cc' : Nat},
      scanMangas fs sid sp names db mc cc = .ok (db', mc', cc') →
      (∀ e ∈ db.events, emissionOk fs e) →
      ∀ e ∈ db'.events, emissionOk fs e := by
  intro names
  induction names with
  | nil =>
      intro db mc cc db' mc' cc' h hdb
      simp only [scanMangas, Except.ok.injEq, Prod.mk.injEq] at h
      obtain ⟨rfl, -, -⟩ := h
      exact hdb
  | cons n ns ih =>
      intro db mc cc db' mc' cc' h hdb
      simp only [scanMangas] at h
      by_cases hd : fs.isdir (joinPath sp n) = true
      · rw [if_pos hd] at h
        cases hchs : discoverChapters fs (joinPath sp n)
            (sortStrings (fs.listdir (joinPath sp n))) with
        | error err => rw [hchs, ebind_error] at h; simp at h
        | ok chs =>
            rw [hchs, ebind_ok] at h
            by_cases he : chs.isEmpty = true
            · rw [if_pos he] at h
              exact ih h hdb
            · rw [if_neg he] at h
              refine ih h ?_
              intro e he2
              rw [addChapters_events] at he2
              simp only [add_manga, List.mem_append, List.mem_singleton,
                List.mem_map] at he2
              rcases he2 with (he2 | he2) | ⟨ch, hch, rfl⟩
              · exact hdb e he2
              · subst he2
                cases hchs' : chs with
                | nil => subst hchs'; simp at he
                | cons a l => simp [emissionOk, hchs']
              · exact discoverChapters_mem hchs ch hch
      · rw [if_neg hd] at h
        exact ih h hdb

/-- Claim C1: every manga the scan emits to the persistence port has at
least one discovered chapter, and every emitted chapter is either a
recognized archive (accepted at any page count, zero included) or a
directory with a positive page count; on the spec's scenario tree the
scan returns one manga and two chapters, emits the zero-page archive
chapter, and does not emit the empty directory Beta at all. -/
theorem C1_scan_emission_invariant :
    (∀ (fs : FS) (sid : Int) (sp : String) (db' : DB) (mc cc : Nat),
        scan_source fs DB.empty sid sp = .ok (db', mc, cc) →
        ∀ e ∈ db'.events, emissionOk fs e)
    ∧ scan_source alphaFS DB.empty 1 "src" =
        .ok (⟨2, [.manga "Alpha" 1 "" 2,
                  .chapter 1 1 "src/Alpha/Chapter 01.cbz" "Chapter 01" 3,
                  .chapter 1 2 "src/Alpha/Chapter 02.cbz" "Chapter 02" 0]⟩, 1, 2) := by
  constructor
  · intro fs sid sp db' mc cc h
    unfold scan_source at h
    by_cases hd : fs.isdir sp = true
    · rw [if_pos hd] at h
      exact scanMangas_emissionOk h (by simp [DB.empty])
    · rw [if_neg hd] at h
      simp only [Except.ok.injEq, Prod.mk.injEq] at h
      obtain ⟨rfl, -, -⟩ := h
      simp [DB.empty]
  · decide

/-- Witness for claim C1: the manga emission of the scenario tree
satisfies the emission invariant. -/
theorem C1_scan_emission_invariant_witness :
    emissionOk alphaFS (Emission.manga "Alpha" 1 "" 2) :=
  C1_scan_emission_invariant.1 alphaFS 1 "src"
    ⟨2, [.manga "Alpha" 1 "" 2,
         .chapter 1 1 "src/Alpha/Chapter 01.cbz" "Chapter 01" 3,
         .chapter 1 2 "src/Alpha/Chapter 02.cbz" "Chapter 02" 0]⟩ 1 2
    C1_scan_emission_invariant.2
    (Emission.manga "Alpha" 1 "" 2) (List.mem_cons_self _ _)

/-! ## Thumbnail geometry lemmas (claim C9) -/

theorem round_aspect_cases (q : ℚ) (key : ℤ → ℚ) :
    round_aspect q key = max ⌊q⌋ 1 ∨ round_aspect q key = max ⌈q⌉ 1 := by
  unfold round_aspect
  by_cases hk : key ⌊q⌋ ≤ key ⌈q⌉ <;> simp [hk]

theorem round_aspect_ge_one (q : ℚ) (key : ℤ → ℚ) : 1 ≤ round_aspect q key := by
  rcases round_aspect_cases q key with hc | hc <;> rw [hc] <;> exact le_max_right _ _

theorem round_aspect_le_ceil {q : ℚ} (hq : 0 < q) (key : ℤ → ℚ) :
    round_aspect q key ≤ ⌈q⌉ := by
  have hceil : (1 : ℤ) ≤ ⌈q⌉ := Int.ceil_pos.mpr hq
  rcases round_aspect_cases q key with hc | hc <;> rw [hc]
  · exact max_le (Int.floor_le_ceil q) hceil
  · exact max_le le_rfl hceil

theorem round_aspect_near {q : ℚ} (hq : 0 < q) (key : ℤ → ℚ) :
    |(round_aspect q key : ℚ) - q| ≤ 1 := by
  have hge : (⌊q⌋ : ℚ) ≤ round_aspect q key := by
    have : ⌊q⌋ ≤ round_aspect q key := by
      rcases round_aspect_cases q key with hc | hc <;> rw [hc]
      · exact le_max_left _ _
      · exact le_trans (Int.floor_le_ceil q) (le_max_left _ _)
    exact_mod_cast this
  have hle : (round_aspect q key : ℚ) ≤ ⌈q⌉ := by
    exact_mod_cast round_aspect_le_ceil hq key
  rw [abs_le]
  constructor
  · have hfl : q - 1 ≤ (⌊q⌋ : ℚ) := le_of_lt (Int.sub_one_lt_floor q)
    linarith
  · have hcl : (⌈q⌉ : ℚ) ≤ q + 1 := le_of_lt (Int.ceil_lt_add_one q)
    linarith

/-- Claim C9: the thumbnail geometry scales a positive-dimension input by
the largest factor at most 1.0 that fits it in the bounds, preserving the
aspect ratio within rounding and never upscaling: each output dimension is
at most the corresponding bound and at most the input dimension, and is
within one pixel of the input dimension scaled by
min 1 (min (maxW/w) (maxH/h)); the 1200 by 1600 input under bounds 300 by
400 yields exactly 300 by 400, and the 100 by 100 input under the same
bounds is returned unscaled. -/
theorem C9_thumbnail_never_upscales :
    (∀ w h maxW maxH : ℕ, 0 < w → 0 < h → 0 < maxW → 0 < maxH →
      (thumbnail_size w h maxW maxH).1 ≤ maxW ∧
      (thumbnail_size w h maxW maxH).2 ≤ maxH ∧
      (thumbnail_size w h maxW maxH).1 ≤ w ∧
      (thumbnail_size w h maxW maxH).2 ≤ h ∧
      |((thumbnail_size w h maxW maxH).1 : ℚ) -
          min 1 (min ((maxW : ℚ) / (w : ℚ)) ((maxH : ℚ) / (h : ℚ))) * (w : ℚ)| ≤ 1 ∧
      |((thumbnail_size w h maxW maxH).2 : ℚ) -
          min 1 (min ((maxW : ℚ) / (w : ℚ)) ((maxH : ℚ) / (h : ℚ))) * (h : ℚ)| ≤ 1)
    ∧ thumbnail_size 1200 1600 300 400 = (300, 400)
    ∧ thumbnail_size 100 100 300 400 = (100, 100) := by
  refine ⟨?_, ?_, ?_⟩
  · intro w h maxW maxH hw hh hmW hmH
    have hW : (0:ℚ) < (w:ℚ) := by exact_mod_cast hw
    have hH : (0:ℚ) < (h:ℚ) := by exact_mod_cast hh
    have hMW : (0:ℚ) < (maxW:ℚ) := by exact_mod_cast hmW
    have hMH : (0:ℚ) < (maxH:ℚ) := by exact_mod_cast hmH
    by_cases hfit : maxW ≥ w ∧ maxH ≥ h
    · have hts : thumbnail_size w h maxW maxH = (w, h) := by
        unfold thumbnail_size; rw [if_pos hfit]
      rw [hts]
      have h1 : (1:ℚ) ≤ (maxW:ℚ)/(w:ℚ) := by
        rw [le_div_iff₀ hW, one_mul]; exact_mod_cast hfit.1
      have h2 : (1:ℚ) ≤ (maxH:ℚ)/(h:ℚ) := by
        rw [le_div_iff₀ hH, one_mul]; exact_mod_cast hfit.2
      have hs : min 1 (min ((maxW : ℚ) / (w:ℚ)) ((maxH : ℚ) / (h:ℚ))) = 1 :=
        min_eq_left (le_min h1 h2)
      rw [hs]
      exact ⟨hfit.1, hfit.2, le_refl _, le_refl _, by simp, by simp⟩
    · by_cases hbr : (maxW : ℚ) / (maxH : ℚ) ≥ (w : ℚ) / (h : ℚ)
      · have hts : thumbnail_size w h maxW maxH =
            ((round_aspect ((maxH : ℚ) * ((w : ℚ) / (h : ℚ)))
              (fun n => |(w : ℚ) / (h : ℚ) - (n : ℚ) / (maxH : ℚ)|)).toNat, maxH) := by
          unfold thumbnail_size; rw [if_neg hfit, if_pos hbr]
        rw [hts]
        set A : ℚ := (w:ℚ)/(h:ℚ) with hA
        set v : ℚ := (maxH:ℚ) * A with hv
        set key : ℤ → ℚ := fun n => |A - (n:ℚ)/(maxH:ℚ)| with hkey
        have hApos : 0 < A := div_pos hW hH
        have hvpos : 0 < v := mul_pos hMH hApos
        have hbr' : (w:ℚ) * (maxH:ℚ) ≤ (maxW:ℚ) * (h:ℚ) := by
          rw [ge_iff_le, hA, div_le_div_iff₀ hH hMH] at hbr
          exact hbr
        have hmb : maxH < h := by
          rcases Nat.lt_or_ge maxH h with hlt | hge
          · exact hlt
          · exfalso; apply hfit
            have hgeQ : (h:ℚ) ≤ (maxH:ℚ) := by exact_mod_cast hge
            refine ⟨?_, hge⟩
            have h1 : (w:ℚ) * (h:ℚ) ≤ (w:ℚ) * (maxH:ℚ) :=
              mul_le_mul_of_nonneg_left hgeQ (le_of_lt hW)
            have h2 : (w:ℚ) * (h:ℚ) ≤ (maxW:ℚ) * (h:ℚ) := le_trans h1 hbr'
            have h3 : (w:ℚ) ≤ (maxW:ℚ) := le_of_mul_le_mul_right h2 hH
            exact_mod_cast h3
        have hmbQ : (maxH:ℚ) < (h:ℚ) := by exact_mod_cast hmb
        have hvleMW : v ≤ (maxW:ℚ) := by
          rw [hv, hA, show (maxH:ℚ) * ((w:ℚ)/(h:ℚ)) = ((maxH:ℚ) * (w:ℚ))/(h:ℚ)
            from mul_div_assoc' _ _ _, div_le_iff₀ hH]
          linarith
        have hvltW : v < (w:ℚ) := by
          have hstep : (maxH:ℚ) * A < (h:ℚ) * A := mul_lt_mul_of_pos_right hmbQ hApos
          have hWA : (h:ℚ) * A = (w:ℚ) := by rw [hA]; field_simp
          rw [hv]; linarith
        have hs2 : (maxH:ℚ)/(h:ℚ) ≤ (maxW:ℚ)/(w:ℚ) := by
          rw [div_le_div_iff₀ hH hW]
          linarith
        have hs1 : (maxH:ℚ)/(h:ℚ) ≤ 1 := by
          rw [div_le_one hH]; exact le_of_lt hmbQ
        have hs : min 1 (min ((maxW:ℚ)/(w:ℚ)) ((maxH:ℚ)/(h:ℚ))) = (maxH:ℚ)/(h:ℚ) := by
          rw [min_eq_right hs2, min_eq_right hs1]
        rw [hs]
        have h1r : 1 ≤ round_aspect v key := round_aspect_ge_one v key
        have hrceil := round_aspect_le_ceil hvpos key
        have hrnear := round_aspect_near hvpos key
        have hrnn : 0 ≤ round_aspect v key := le_trans zero_le_one h1r
        have hcast : (((round_aspect v key).toNat : ℕ) : ℚ) = ((round_aspect v key : ℤ) : ℚ) := by
          exact_mod_cast congrArg (fun z : ℤ => (z : ℚ)) (Int.toNat_of_nonneg hrnn)
        have hxleMW : (round_aspect v key).toNat ≤ maxW := by
          rw [Int.toNat_le]
          refine le_trans hrceil ?_
          rw [Int.ceil_le]
          push_cast
          exact hvleMW
        have hxleW : (round_aspect v key).toNat ≤ w := by
          rw [Int.toNat_le]
          refine le_trans hrceil ?_
          rw [Int.ceil_le]
          push_cast
          exact le_of_lt hvltW
        have hswv : (maxH:ℚ)/(h:ℚ) * (w:ℚ) = v := by
          rw [hv, hA]; field_simp
        have hshv : (maxH:ℚ)/(h:ℚ) * (h:ℚ) = (maxH:ℚ) := by field_simp
        refine ⟨hxleMW, le_refl _, hxleW, le_of_lt hmb, ?_, ?_⟩
        · show |(((round_aspect v key).toNat : ℕ) : ℚ) - (maxH:ℚ)/(h:ℚ) * (w:ℚ)| ≤ 1
          rw [hswv, hcast]
          exact hrnear
        · show |((maxH : ℕ) : ℚ) - (maxH:ℚ)/(h:ℚ) * (h:ℚ)| ≤ 1
          rw [hshv]
          simp
      · have hbrlt : (maxW : ℚ) / (maxH : ℚ) < (w : ℚ) / (h : ℚ) := lt_of_not_ge hbr
        have hts : thumbnail_size w h maxW maxH =
            (maxW, (round_aspect ((maxW : ℚ) / ((w : ℚ) / (h : ℚ)))
              (fun n => if n = 0 then 0
                else |(w : ℚ) / (h : ℚ) - (maxW : ℚ) / (n : ℚ)|)).toNat) := by
          unfold thumbnail_size; rw [if_neg hfit, if_neg hbr]
        rw [hts]
        set A : ℚ := (w:ℚ)/(h:ℚ) with hA
        set v : ℚ := (maxW:ℚ) / A with hv
        set key : ℤ → ℚ := fun n => if n = 0 then 0 else |A - (maxW:ℚ)/(n:ℚ)| with hkey
        have hApos : 0 < A := div_pos hW hH
        have hvpos : 0 < v := div_pos hMW hApos
        have hbr' : (maxW:ℚ) * (h:ℚ) < (w:ℚ) * (maxH:ℚ) := by
          rw [hA, div_lt_div_iff₀ hMH hH] at hbrlt
          exact hbrlt
        have hma : maxW < w := by
          rcases Nat.lt_or_ge maxW w with hlt | hge
          · exact hlt
          · exfalso; apply hfit
            have hgeQ : (w:ℚ) ≤ (maxW:ℚ) := by exact_mod_cast hge
            refine ⟨hge, ?_⟩
            have h1 : (w:ℚ) * (h:ℚ) ≤ (maxW:ℚ) * (h:ℚ) :=
              mul_le_mul_of_nonneg_right hgeQ (le_of_lt hH)
            have h2 : (w:ℚ) * (h:ℚ) < (w:ℚ) * (maxH:ℚ) := lt_of_le_of_lt h1 hbr'
            have h3 : (h:ℚ) < (maxH:ℚ) := lt_of_mul_lt_mul_left h2 (le_of_lt hW)
            have h4 : h ≤ maxH := by
              have : h < maxH := by exact_mod_cast h3
              exact le_of_lt this
            exact h4
        have hmaQ : (maxW:ℚ) < (w:ℚ) := by exact_mod_cast hma
        have hvA : v = ((maxW:ℚ) * (h:ℚ)) / (w:ℚ) := by
          rw [hv, hA, div_div_eq_mul_div]
        have hvleMH : v ≤ (maxH:ℚ) := by
          rw [hvA, div_le_iff₀ hW]
          nlinarith
        have hvltH : v < (h:ℚ) := by
          rw [hvA, div_lt_iff₀ hW]
          nlinarith
        have hs2 : (maxW:ℚ)/(w:ℚ) ≤ (maxH:ℚ)/(h:ℚ) := by
          rw [div_le_div_iff₀ hW hH]
          nlinarith
        have hs1 : (maxW:ℚ)/(w:ℚ) ≤ 1 := by
          rw [div_le_one hW]; exact le_of_lt hmaQ
        have hs : min 1 (min ((maxW:ℚ)/(w:ℚ)) ((maxH:ℚ)/(h:ℚ))) = (maxW:ℚ)/(w:ℚ) := by
          rw [min_eq_left hs2, min_eq_right hs1]
        rw [hs]
        have h1r : 1 ≤ round_aspect v key := round_aspect_ge_one v key
        have hrceil := round_aspect_le_ceil hvpos key
        have hrnear := round_aspect_near hvpos key
        have hrnn : 0 ≤ round_aspect v key := le_trans zero_le_one h1r
        have hcast : (((round_aspect v key).toNat : ℕ) : ℚ) = ((round_aspect v key : ℤ) : ℚ) := by
          exact_mod_cast congrArg (fun z : ℤ => (z : ℚ)) (Int.toNat_of_nonneg hrnn)
        have hyleMH : (round_aspect v key).toNat ≤ maxH := by
          rw [Int.toNat_le]
          refine le_trans hrceil ?_
          rw [Int.ceil_le]
          push_cast
          exact hvleMH
        have hyleH : (round_aspect v key).toNat ≤ h := by
          rw [Int.toNat_le]
          refine le_trans hrceil ?_
          rw [Int.ceil_le]
          push_cast
          exact le_of_lt hvltH
        have hswv : (maxW:ℚ)/(w:ℚ) * (w:ℚ) = (maxW:ℚ) := by field_simp
        have hshv : (maxW:ℚ)/(w:ℚ) * (h:ℚ) = v := by
          rw [hvA]; field_simp
        refine ⟨le_refl _, hyleMH, le_of_lt hma, hyleH, ?_, ?_⟩
        · show |((maxW : ℕ) : ℚ) - (maxW:ℚ)/(w:ℚ) * (w:ℚ)| ≤ 1
          rw [hswv]
          simp
        · show |(((round_aspect v key).toNat : ℕ) : ℚ) - (maxW:ℚ)/(w:ℚ) * (h:ℚ)| ≤ 1
          rw [hshv, hcast]
          exact hrnear
  · unfold thumbnail_size
    rw [if_neg (by decide), if_pos (by norm_num)]
    have e1 : ((400 : ℕ) : ℚ) * (((1200 : ℕ) : ℚ) / ((1600 : ℕ) : ℚ)) = ((300 : ℤ) : ℚ) := by
      norm_num
    rw [e1, round_aspect, Int.floor_intCast, Int.ceil_intCast, ite_self]
    decide
  · unfold thumbnail_size
    rw [if_pos (by decide)]

/-- Witness for claim C9 at the 1200 by 1600 input under bounds 300 by
400. -/
theorem C9_thumbnail_never_upscales_witness :
    (thumbnail_size 1200 1600 300 400).1 ≤ 300 ∧
    (thumbnail_size 1200 1600 300 400).2 ≤ 400 ∧
    (thumbnail_size 1200 1600 300 400).1 ≤ 1200 ∧
    (thumbnail_size 1200 1600 300 400).2 ≤ 1600 ∧
    |((thumbnail_size 1200 1600 300 400).1 : ℚ) -
        min 1 (min (((300 : ℕ) : ℚ) / ((1200 : ℕ) : ℚ))
          (((400 : ℕ) : ℚ) / ((1600 : ℕ) : ℚ))) * ((1200 : ℕ) : ℚ)| ≤ 1 ∧
    |((thumbnail_size 1200 1600 300 400).2 : ℚ) -
        min 1 (min (((300 : ℕ) : ℚ) / ((1200 : ℕ) : ℚ))
          (((400 : ℕ) : ℚ) / ((1600 : ℕ) : ℚ))) * ((1600 : ℕ) : ℚ)| ≤ 1 :=
  C9_thumbnail_never_upscales.1 1200 1600 300 400
    (by decide) (by decide) (by decide) (by decide)

end ComicViewer
